import Mathlib

/-!
Verification of the OsmChange tile-generation core
(src/Scripts/Maperipy/OsmChangeTileGenCommand.py).

The Python class OsmChangeTileGenCommand is shallowly embedded here.
Conventions of the embedding:

* Python integers are Int; Python floor division // is Int.fdiv.
* The dictionary-of-dictionaries self.changed[zoom][(x, y)] is a structure
  ChangedIdx: its key set range(min_zoom, max_zoom+1) is fixed at
  initialization (osmChangeRead line 93) and never changes afterwards
  (new_tile only writes to existing keys), so it is carried as the pair
  lo, hi together with the per-zoom tile sets.  Python min(self.changed)
  and max(self.changed) are lo and hi; they are only meaningful when the
  dict is non-empty, whence the embedded proof lo <= hi.
* Collaborators that are not part of this repository source
  (PolygonTileGenCommand and the Maperitive API) are abstracted as an
  environment Env: the polygon predicates linear_ring_overlapps_polygon
  and tiles_overlapps_polygon, and deg2num.  deg2num itself is in the
  source but computes with IEEE floating point transcendentals
  (math.log, math.tan, math.cos); its exact values are not shallowly
  embeddable, and no claim depends on them - only on which corners of a
  bounding box are passed to it and on how its results are used - so it
  is treated as an oracle of the environment.
* Python generators are embedded as the list of values they yield, in
  order, evaluated at yield time (the consumer in osmChangeRead consumes
  each yielded box immediately).
* Recursive Python functions are embedded with an explicit Nat recursion
  depth so that every definition is executable by the kernel; the depth
  supplied by each wrapper is the exact recursion depth of the source
  function, and the recurrence equations of the source are proved as
  lemmas below, establishing that the embedding is the function computed
  by the source.
-/

/-- Geographic bounding box, the coordinate view of a Maperitive
BoundingBox value: min_x/max_x are longitudes, min_y/max_y latitudes. -/
structure BBox where
  min_x : Rat
  max_x : Rat
  min_y : Rat
  max_y : Rat
deriving DecidableEq

/-- Union of two bounding boxes (BoundingBox.extend_with). -/
def bbUnion (a b : BBox) : BBox :=
  ⟨min a.min_x b.min_x, max a.max_x b.max_x, min a.min_y b.min_y, max a.max_y b.max_y⟩

/-- The accumulator rel_bbox of bboxes starts as the fresh empty
BoundingBox(Srid.Wgs84LonLat); an empty box is modelled as none. -/
def extendOpt (acc : Option BBox) (b : Option BBox) : Option BBox :=
  match acc, b with
  | none, b => b
  | some a, none => some a
  | some a, some b => some (bbUnion a b)

def multipolygonTag : String := "multipolygon"

/-- OsmReferenceType of a relation member. -/
inductive RefType where
  | NODE
  | WAY
  | RELATION
deriving DecidableEq

structure Member where
  ref_type : RefType
  ref_id : Int
deriving DecidableEq

/-- An OSM relation as used by bboxes: only the tag named type is ever
read by the source, so only that tag is carried. -/
structure Relation where
  typeTag : Option String
  members : List Member

/-- A loaded OSM snapshot (OsmData): lookup of the bounding box of a
node location, of a way geometry, and of a relation, by id.  A missing
id is none: has_node / has_way / has_relation are isSome, and a direct
access of a missing id is the KeyError path. -/
structure OsmData where
  node : Int → Option BBox
  way : Int → Option BBox
  relation : Int → Option Relation

def has_node (d : OsmData) (i : Int) : Bool := (d.node i).isSome

def has_way (d : OsmData) (i : Int) : Bool := (d.way i).isSome

def has_relation (d : OsmData) (i : Int) : Bool := (d.relation i).isSome

/-- rel_members_bbox (source lines 278-279): true iff the relation is
not tagged as a multipolygon, i.e. each member should yield its own
bounding box.  The source condition has_tag and get_tag == multipolygon
is exactly typeTag = some multipolygonTag. -/
def rel_members_bbox (r : Relation) : Bool :=
  ! decide (r.typeTag = some multipolygonTag)

/-- The element_type strings node / way / relation of the changeset, and
the Python member_type = None case for an unresolvable member (any other
string behaves like None: no branch of bboxes matches it). -/
inductive ElemType where
  | node
  | way
  | relation
  | unresolved
deriving DecidableEq

/-- bboxes (source lines 281-306).  Returns none exactly on the KeyError
path: a top-level id missing from the snapshot (member lookups are
guarded by has_node / has_way / has_relation and cannot raise).  The
yielded values are collected in order; a yield of the mutable
accumulator rel_bbox is recorded as its value at yield time.  The Nat
argument bounds the relation-nesting depth of the recursion; the source
recursion is unbounded and unguarded against membership cycles (a
hazard flagged by its design notes), and every claim below quantifies
over or supplies a sufficient depth. -/
def bboxes (d : OsmData) : Nat → ElemType → Int → Option (List (Option BBox))
  | _, ElemType.node, i => (d.node i).map (fun b => [some b])
  | _, ElemType.way, i => (d.way i).map (fun b => [some b])
  | _, ElemType.unresolved, _ => some []
  | 0, ElemType.relation, i => (d.relation i).map (fun _ => [])
  | fuel + 1, ElemType.relation, i =>
    (d.relation i).map (fun r =>
      let members_bbox := rel_members_bbox r
      (r.members.foldl
        (fun (st : Option BBox × List (Option BBox)) m =>
          let mt : ElemType :=
            if m.ref_type = RefType.NODE ∧ has_node d m.ref_id then ElemType.node
            else if m.ref_type = RefType.WAY ∧ has_way d m.ref_id then ElemType.way
            else if m.ref_type = RefType.RELATION ∧ has_relation d m.ref_id then ElemType.relation
            else ElemType.unresolved
          let inner := (bboxes d fuel mt m.ref_id).getD []
          if members_bbox then
            (st.1, st.2 ++ inner)
          else
            let acc := inner.foldl extendOpt st.1
            (acc, st.2 ++ [acc]))
        ((none : Option BBox), ([] : List (Option BBox)))).2)

/-- The state self.changed: per-zoom sets of changed tiles over the
fixed key range [lo, hi] = range(min_zoom, max_zoom + 1); lo <= hi
because Python min/max of the key set are taken by the source. -/
structure ChangedIdx where
  lo : Int
  hi : Int
  hle : lo ≤ hi
  t : Int → Finset (Int × Int)

/-- The freshly initialized index of osmChangeRead line 93:
every zoom level of the key range maps to the empty set. -/
def freshIdx (lo hi : Int) (h : lo ≤ hi) : ChangedIdx :=
  ⟨lo, hi, h, fun _ => ∅⟩

/-- self.changed[zoom][tile] = True. -/
def markAt (ci : ChangedIdx) (tile : Int × Int) (zoom : Int) : ChangedIdx :=
  { ci with t := fun z => if z = zoom then insert tile (ci.t z) else ci.t z }

/-- new_tile (source lines 208-215): returns False if zoom is not a key
of self.changed or the tile is already marked, otherwise marks the tile
and returns True.  The returned pair is (return value, new state). -/
def new_tile (ci : ChangedIdx) (tile : Int × Int) (zoom : Int) : Bool × ChangedIdx :=
  if zoom < ci.lo ∨ ci.hi < zoom ∨ tile ∈ ci.t zoom then (false, ci)
  else (true, markAt ci tile zoom)

/-- Recursion worker for new_tile_upwards (source lines 204-206):
if zoom > max(self.changed), recurse on the parent tile without marking;
otherwise mark via new_tile and recurse on the parent exactly when the
tile was newly marked.  The Nat argument is recursion depth; the source
recursion descends one zoom per call and stops at the latest one level
below lo, so the depth supplied by the wrapper never reaches 0. -/
def new_tile_upwardsF : Nat → ChangedIdx → (Int × Int) → Int → ChangedIdx
  | 0, ci, _, _ => ci
  | n + 1, ci, tile, zoom =>
    if ci.hi < zoom then
      new_tile_upwardsF n ci (tile.1.fdiv 2, tile.2.fdiv 2) (zoom - 1)
    else if (new_tile ci tile zoom).1 = true then
      new_tile_upwardsF n (new_tile ci tile zoom).2 (tile.1.fdiv 2, tile.2.fdiv 2) (zoom - 1)
    else (new_tile ci tile zoom).2

/-- new_tile_upwards (source lines 204-206) with its exact recursion
depth supplied. -/
def new_tile_upwards (ci : ChangedIdx) (tile : Int × Int) (zoom : Int) : ChangedIdx :=
  new_tile_upwardsF ((zoom - ci.lo + 1).toNat + 1) ci tile zoom

/-- Python range(a, b) as a list of Ints. -/
def range1Fuel : Nat → Int → List Int
  | 0, _ => []
  | n + 1, a => a :: range1Fuel n (a + 1)

def range1 (a b : Int) : List Int := range1Fuel (b - a).toNat a

/-- Python range(a, b, 3) as a list of Ints: ceil((b-a)/3) elements
starting at a. -/
def range3Fuel : Nat → Int → List Int
  | 0, _ => []
  | n + 1, a => a :: range3Fuel n (a + 3)

def range3 (a b : Int) : List Int := range3Fuel (((b - a).toNat + 2) / 3) a

/-- The environment: collaborators outside this repository source plus
the floating-point deg2num oracle (see the header comment).
d2n lat lon zoom is deg2num (source lines 162-171);
ringOverlap b is linear_ring_overlapps_polygon(b.polygon.exterior);
tilesOverlap zoom x y is tiles_overlapps_polygon(zoom, x, y, 1, 1);
emptyBBox is the coordinate view of the fresh empty
BoundingBox(Srid.Wgs84LonLat) accumulator should it ever be consumed. -/
structure Env where
  d2n : Rat → Rat → Int → Int × Int
  ringOverlap : BBox → Bool
  tilesOverlap : Int → Int → Int → Bool
  emptyBBox : BBox

/-- The nested marking loops of mark_bbox (source lines 274-276):
for x in range(left, right + 1): for y in range(bottom, top + 1):
new_tile_upwards((x, y), max(self.changed)). -/
def markRect (ci : ChangedIdx) (left right bottom top : Int) : ChangedIdx :=
  (range1 left (right + 1)).foldl
    (fun s x =>
      (range1 bottom (top + 1)).foldl
        (fun s2 y => new_tile_upwards s2 (x, y) s2.hi) s)
    ci

/-- mark_bbox (source lines 255-276).  The visualize branch only draws
symbols on a map layer and never touches self.changed, so it is not part
of the state transition. -/
def mark_bbox (env : Env) (ci : ChangedIdx) (b : BBox) : ChangedIdx :=
  if env.ringOverlap b = false then ci
  else
    let lt := env.d2n b.max_y b.min_x ci.hi
    let rb := env.d2n b.min_y b.max_x ci.hi
    markRect ci lt.1 rb.1 rb.2 lt.2

/-- The 3x3 neighborhood examined by update_guard (source lines 230-231):
x_guard in range(x-1, x+2), y_guard in range(y-1, y+2). -/
def nb3 (p : Int × Int) : Finset (Int × Int) :=
  {(p.1 - 1, p.2 - 1), (p.1 - 1, p.2), (p.1 - 1, p.2 + 1),
   (p.1, p.2 - 1), (p.1, p.2), (p.1, p.2 + 1),
   (p.1 + 1, p.2 - 1), (p.1 + 1, p.2), (p.1 + 1, p.2 + 1)}

def nbhd (s : Finset (Int × Int)) : Finset (Int × Int) := s.biUnion nb3

/-- One pass of update_guard (source lines 226-238) per zoom level,
indexed by k = zoom - lo so the pass over level lo is the base case.
A candidate of the 3x3 neighborhood of a changed tile enters the level
iff (zoom == min(self.changed) or its parent is in the level below) and
tiles_overlapps_polygon(zoom, x, y, 1, 1).  The tile_checked dedup of
the source only avoids re-testing a candidate and does not change the
resulting set, the test being deterministic. -/
def guardLevels (env : Env) (ci : ChangedIdx) : Nat → Finset (Int × Int)
  | 0 =>
    (nbhd (ci.t ci.lo)).filter (fun p => env.tilesOverlap ci.lo p.1 p.2 = true)
  | k + 1 =>
    (nbhd (ci.t (ci.lo + (k : Int) + 1))).filter
      (fun p => (p.1.fdiv 2, p.2.fdiv 2) ∈ guardLevels env ci k ∧
        env.tilesOverlap (ci.lo + (k : Int) + 1) p.1 p.2 = true)

/-- The guard dictionary built by update_guard: its key set equals the
key set [lo, hi] of self.changed (guard[zoom] is created exactly for
zoom in sorted(self.changed)); levels outside it are irrelevant and set
to the empty set. -/
def guardAt (env : Env) (ci : ChangedIdx) (zoom : Int) : Finset (Int × Int) :=
  if ci.lo ≤ zoom ∧ zoom ≤ ci.hi then guardLevels env ci (zoom - ci.lo).toNat else ∅

/-- Recursion worker for updated (source lines 173-202) once self.guard
is available as g with key range [lo, hi] (= the key range of
self.changed, which the source compares against via min/max): a zoom
inside the range answers membership; above the range the KeyError
handler recurses on the parent tile; below it on the four child tiles,
in the order of the source.  The Nat argument is recursion depth: the
distance from zoom to the key range, which the wrapper supplies
exactly. -/
def updatedInF (lo hi : Int) (g : Int → Finset (Int × Int)) :
    Nat → Int → Int → Int → Bool
  | 0, zoom, x, y => decide ((x, y) ∈ g zoom)
  | n + 1, zoom, x, y =>
    if lo ≤ zoom ∧ zoom ≤ hi then decide ((x, y) ∈ g zoom)
    else if hi < zoom then updatedInF lo hi g n (zoom - 1) (x.fdiv 2) (y.fdiv 2)
    else
      (updatedInF lo hi g n (zoom + 1) (2 * x) (2 * y)
        || updatedInF lo hi g n (zoom + 1) (2 * x + 1) (2 * y + 1)
        || updatedInF lo hi g n (zoom + 1) (2 * x) (2 * y + 1)
        || updatedInF lo hi g n (zoom + 1) (2 * x + 1) (2 * y))

def updatedIn (lo hi : Int) (g : Int → Finset (Int × Int)) (zoom x y : Int) : Bool :=
  updatedInF lo hi g (if hi < zoom then zoom - hi else lo - zoom).toNat zoom x y

/-- The command state: the configured zoom range (fields of the
enclosing PolygonTileGenCommand, min_zoom <= max_zoom in any deployment
since osmChangeRead takes min and max of the key range), self.changed
and self.guard.  hg is the program invariant that the guard cache only
exists once an analysis created self.changed: both are None after
__init__ (source lines 152-155), osmChangeRead sets changed before any
guard is built, and update_guard reads self.changed. -/
structure Cmd where
  min_zoom : Int
  max_zoom : Int
  hmz : min_zoom ≤ max_zoom
  changed : Option ChangedIdx
  guard : Option (Int → Finset (Int × Int))
  hg : changed = none → guard = none

/-- updated (source lines 173-202).  Control flow of the source, using
hg: with self.changed None, self.guard is also None, so the lookup
raises TypeError and the handler returns True (analysis was not done);
with self.changed set and self.guard None, update_guard builds the
guard from self.changed (guardAt) and the query is retried; with both
set, the guard dictionary is consulted directly, recursing through the
KeyError handler for zooms outside its key range. -/
def Cmd.updated (env : Env) (c : Cmd) (zoom x y : Int) : Bool :=
  match c.changed with
  | none => true
  | some ci => updatedIn ci.lo ci.hi ((c.guard).getD (guardAt env ci)) zoom x y

/-- generation_filter (source lines 43-60): sample every third tile
column of the super-tile plus the far column, and - as written in the
source - every third tile row over an extent given by width (not
height) plus the row y + width - 1; return true iff some sampled tile
is updated.  The verbose branch only prints. -/
def generation_filter (env : Env) (c : Cmd) (zoom x y width height : Int) : Bool :=
  (range3 x (x + width) ++ [x + width - 1]).any (fun tile_x =>
    (range3 y (y + width) ++ [y + width - 1]).any (fun tile_y =>
      c.updated env zoom tile_x tile_y))

/-- A rendered tile as passed to save_filter. -/
structure Tile where
  zoom : Int
  tile_x : Int
  tile_y : Int

/-- save_filter (source lines 62-70).  The updated query is computed
first; with verbose set, line 66 then evaluates self.changed[zoom]
where the name zoom is unbound in this scope (the parameter is tile), a
NameError (and save[reason] += 1 would index a bool) - modelled as
none.  With verbose unset the updated value is returned. -/
def save_filter (env : Env) (c : Cmd) (verbose : Bool) (tile : Tile) : Option Bool :=
  let save := c.updated env tile.zoom tile.tile_x tile.tile_y
  if verbose then none
  else some save

/-- A change record of the changeset: parent action group, element kind
and id (source lines 129-132). -/
inductive ChAction where
  | create
  | modify
  | delete
deriving DecidableEq

structure ChangeRecord where
  action : ChAction
  etype : ElemType
  id : Int

/-- The parsed changeset envelope: whether the osmChange element has
child nodes, and the records SelectNodes("./osmChange/*/*") yields. -/
structure ChangeSet where
  hasChildren : Bool
  records : List ChangeRecord

/-- The marking loop body: each yielded bounding box is passed to
mark_bbox; a yield of the still-empty accumulator passes the fresh
BoundingBox value of the environment. -/
def markList (env : Env) (ci : ChangedIdx) (l : List (Option BBox)) : ChangedIdx :=
  l.foldl (fun s ob => mark_bbox env s (ob.getD env.emptyBBox)) ci

/-- Processing of one change record (source lines 129-147): delete and
modify mark the boxes resolved against the base map, create and modify
those against the new map; a KeyError (top-level id missing from the
snapshot, bboxes = none) aborts the rest of this record, keeping marks
already made. -/
def processRecord (env : Env) (fuel : Nat) (base newm : OsmData)
    (ci : ChangedIdx) (r : ChangeRecord) : ChangedIdx :=
  match (if r.action = ChAction.delete ∨ r.action = ChAction.modify
      then bboxes base fuel r.etype r.id else some []) with
  | none => ci
  | some l1 =>
    let ci1 := markList env ci l1
    match (if r.action = ChAction.create ∨ r.action = ChAction.modify
        then bboxes newm fuel r.etype r.id else some []) with
    | none => ci1
    | some l2 => markList env ci1 l2

/-- osmChangeRead (source lines 72-150), restricted to its effect on the
index state: self.changed is initialized to the empty dict over
range(min_zoom, max_zoom + 1) if still None; self.guard is invalidated
to None; if the osmChange envelope has no child nodes the method
returns at line 105 before loading any map or producing any record;
otherwise every record is processed in order.  Timestamp parsing and
map-layer management have no effect on the index and are omitted. -/
def osmChangeRead (env : Env) (fuel : Nat) (c : Cmd) (cs : ChangeSet)
    (base newm : OsmData) : Cmd :=
  let ci0 := (c.changed).getD (freshIdx c.min_zoom c.max_zoom c.hmz)
  if cs.hasChildren = false then
    { c with changed := some ci0, guard := none, hg := fun h => Option.noConfusion h }
  else
    { c with
      changed := some (cs.records.foldl (processRecord env fuel base newm) ci0),
      guard := none,
      hg := fun h => Option.noConfusion h }

/-- Outcome of execute: either the early return or the delegation to
PolygonTileGenCommand.execute (the actual rendering, outside this
repository source). -/
inductive ExecResult where
  | skipped
  | ranParent
deriving DecidableEq

/-- execute (source lines 157-160): return immediately when no analysis
ever ran or when no tile is marked at the coarsest analyzed zoom
(not self.changed[min(self.changed)]); otherwise run the parent
generation command. -/
def execute (c : Cmd) : ExecResult :=
  match c.changed with
  | none => ExecResult.skipped
  | some ci => if ci.t ci.lo = ∅ then ExecResult.skipped else ExecResult.ranParent

/-- The upward propagation invariant of self.changed: a tile marked at a
zoom finer than the coarsest analyzed level has its parent marked one
level coarser. -/
def UpwardInv (ci : ChangedIdx) : Prop :=
  ∀ z : Int, ci.lo ≤ z → z < ci.hi → ∀ p : Int × Int,
    p ∈ ci.t (z + 1) → (p.1.fdiv 2, p.2.fdiv 2) ∈ ci.t z

/-- The invariant up to one pending obligation: while new_tile_upwards
is still to ensure tile at level zoom, children at level zoom + 1 whose
parent is tile may not yet have their parent marked. -/
def Pre (ci : ChangedIdx) (tile : Int × Int) (zoom : Int) : Prop :=
  ∀ z : Int, ci.lo ≤ z → z < ci.hi → ∀ p : Int × Int,
    p ∈ ci.t (z + 1) →
      (p.1.fdiv 2, p.2.fdiv 2) ∈ ci.t z ∨ (z = zoom ∧ (p.1.fdiv 2, p.2.fdiv 2) = tile)

def envC1 : Env :=
  ⟨fun lat _ _ => (0, if lat = (1 : Rat) then 0 else 1),
   fun _ => true, fun _ _ _ => true, ⟨0, 0, 0, 0⟩⟩

def bC1 : BBox := ⟨0, 0, 0, 1⟩

def ciC1 : ChangedIdx := freshIdx 0 0 (by decide)

def envC2 : Env :=
  ⟨fun _ _ _ => (0, 0), fun _ => true,
   fun z xx yy => decide (z = 0 ∧ xx = 0 ∧ yy = 2), ⟨0, 0, 0, 0⟩⟩

def ciC2 : ChangedIdx :=
  ⟨0, 0, by decide, fun z => if z = 0 then {(0, 2)} else ∅⟩

def cC2 : Cmd := ⟨0, 0, by decide, some ciC2, none, fun h => Option.noConfusion h⟩

def envW2 : Env :=
  ⟨fun _ _ _ => (0, 0), fun _ => true, fun _ _ _ => true, ⟨0, 0, 0, 0⟩⟩

def ciW2 : ChangedIdx :=
  ⟨0, 0, by decide, fun z => if z = 0 then {(0, 0)} else ∅⟩

def cW2 : Cmd := ⟨0, 0, by decide, some ciW2, none, fun h => Option.noConfusion h⟩

def ciW5 : ChangedIdx :=
  ⟨0, 1, by decide, fun z => if z = 1 then {(0, 0)} else if z = 0 then {(0, 0)} else ∅⟩

def cW6 : Cmd := ⟨0, 0, by decide, none, none, fun _ => rfl⟩

def box1 : BBox := ⟨0, 1, 0, 1⟩

def box2 : BBox := ⟨4, 5, 4, 5⟩

def relMP : Relation :=
  ⟨some multipolygonTag, [⟨RefType.NODE, 1⟩, ⟨RefType.WAY, 2⟩, ⟨RefType.NODE, 3⟩]⟩

def relPlain : Relation :=
  ⟨none, [⟨RefType.NODE, 1⟩, ⟨RefType.WAY, 2⟩, ⟨RefType.NODE, 3⟩]⟩

def dC3 : OsmData :=
  ⟨fun i => if i = 1 then some box1 else none,
   fun i => if i = 2 then some box2 else none,
   fun i => if i = 7 then some relMP else if i = 8 then some relPlain else none⟩

def bW7 : BBox := ⟨0, 0, 0, 0⟩

def envW8 : Env :=
  ⟨fun _ _ _ => (0, 0), fun _ => false, fun _ _ _ => true, ⟨0, 0, 0, 0⟩⟩

def csW9 : ChangeSet := ⟨false, []⟩

def cW9 : Cmd := ⟨0, 1, by decide, none, none, fun _ => rfl⟩

def dEmpty : OsmData := ⟨fun _ => none, fun _ => none, fun _ => none⟩

theorem new_tile_fst_true {ci : ChangedIdx} {tile : Int × Int} {zoom : Int}
    (h : (new_tile ci tile zoom).1 = true) :
    ci.lo ≤ zoom ∧ zoom ≤ ci.hi ∧ tile ∉ ci.t zoom := by
  by_cases hc : zoom < ci.lo ∨ ci.hi < zoom ∨ tile ∈ ci.t zoom
  · simp [new_tile, hc] at h
  · push_neg at hc
    exact ⟨hc.1, hc.2.1, hc.2.2⟩

theorem new_tile_snd_of_true {ci : ChangedIdx} {tile : Int × Int} {zoom : Int}
    (h : (new_tile ci tile zoom).1 = true) :
    (new_tile ci tile zoom).2 = markAt ci tile zoom := by
  by_cases hc : zoom < ci.lo ∨ ci.hi < zoom ∨ tile ∈ ci.t zoom
  · simp [new_tile, hc] at h
  · simp [new_tile, hc]

theorem new_tile_snd_of_false {ci : ChangedIdx} {tile : Int × Int} {zoom : Int}
    (h : ¬ (new_tile ci tile zoom).1 = true) :
    (new_tile ci tile zoom).2 = ci := by
  by_cases hc : zoom < ci.lo ∨ ci.hi < zoom ∨ tile ∈ ci.t zoom
  · simp [new_tile, hc]
  · simp [new_tile, hc] at h

theorem new_tile_cond_of_false {ci : ChangedIdx} {tile : Int × Int} {zoom : Int}
    (h : ¬ (new_tile ci tile zoom).1 = true) :
    zoom < ci.lo ∨ ci.hi < zoom ∨ tile ∈ ci.t zoom := by
  by_cases hc : zoom < ci.lo ∨ ci.hi < zoom ∨ tile ∈ ci.t zoom
  · exact hc
  · simp [new_tile, hc] at h

theorem updatedInF_zero (lo hi : Int) (g : Int → Finset (Int × Int)) (zoom x y : Int) :
    updatedInF lo hi g 0 zoom x y = decide ((x, y) ∈ g zoom) := rfl

theorem updatedInF_succ (lo hi : Int) (g : Int → Finset (Int × Int)) (n : Nat) (zoom x y : Int) :
    updatedInF lo hi g (n + 1) zoom x y =
      if lo ≤ zoom ∧ zoom ≤ hi then decide ((x, y) ∈ g zoom)
      else if hi < zoom then updatedInF lo hi g n (zoom - 1) (x.fdiv 2) (y.fdiv 2)
      else
        (updatedInF lo hi g n (zoom + 1) (2 * x) (2 * y)
          || updatedInF lo hi g n (zoom + 1) (2 * x + 1) (2 * y + 1)
          || updatedInF lo hi g n (zoom + 1) (2 * x) (2 * y + 1)
          || updatedInF lo hi g n (zoom + 1) (2 * x + 1) (2 * y)) := rfl

/-- In the analyzed range, updated is membership of the guard level
(source line 175). -/
theorem updatedIn_mem (lo hi : Int) (g : Int → Finset (Int × Int)) (zoom x y : Int)
    (h1 : lo ≤ zoom) (h2 : zoom ≤ hi) :
    updatedIn lo hi g zoom x y = decide ((x, y) ∈ g zoom) := by
  unfold updatedIn
  have hf : (if hi < zoom then zoom - hi else lo - zoom).toNat = 0 := by
    rw [if_neg (by omega)]; omega
  rw [hf, updatedInF_zero]

/-- Above the analyzed range, updated recurses on the parent tile
(source lines 189-191). -/
theorem updatedIn_above (lo hi : Int) (g : Int → Finset (Int × Int)) (zoom x y : Int)
    (hle : lo ≤ hi) (h : hi < zoom) :
    updatedIn lo hi g zoom x y = updatedIn lo hi g (zoom - 1) (x.fdiv 2) (y.fdiv 2) := by
  unfold updatedIn
  rw [if_pos h]
  obtain ⟨k, hk⟩ : ∃ k, (zoom - hi).toNat = k + 1 := ⟨(zoom - hi).toNat - 1, by omega⟩
  rw [hk, updatedInF_succ, if_neg (by omega), if_pos h]
  congr 1
  split <;> omega

/-- Below the analyzed range, updated is the disjunction over the four
child tiles, in source order (source lines 192-200). -/
theorem updatedIn_below (lo hi : Int) (g : Int → Finset (Int × Int)) (zoom x y : Int)
    (hle : lo ≤ hi) (h : zoom < lo) :
    updatedIn lo hi g zoom x y =
      (updatedIn lo hi g (zoom + 1) (2 * x) (2 * y)
        || updatedIn lo hi g (zoom + 1) (2 * x + 1) (2 * y + 1)
        || updatedIn lo hi g (zoom + 1) (2 * x) (2 * y + 1)
        || updatedIn lo hi g (zoom + 1) (2 * x + 1) (2 * y)) := by
  unfold updatedIn
  rw [if_neg (by omega)]
  obtain ⟨k, hk⟩ : ∃ k, (lo - zoom).toNat = k + 1 := ⟨(lo - zoom).toNat - 1, by omega⟩
  have hf : (if hi < zoom + 1 then zoom + 1 - hi else lo - (zoom + 1)).toNat = k := by
    rw [if_neg (by omega)]; omega
  rw [hk, updatedInF_succ, if_neg (by omega), if_neg (by omega), hf]

theorem markAt_lo (ci : ChangedIdx) (tile : Int × Int) (zoom : Int) :
    (markAt ci tile zoom).lo = ci.lo := rfl

theorem markAt_hi (ci : ChangedIdx) (tile : Int × Int) (zoom : Int) :
    (markAt ci tile zoom).hi = ci.hi := rfl

theorem markAt_t (ci : ChangedIdx) (tile : Int × Int) (zoom z : Int) :
    (markAt ci tile zoom).t z = if z = zoom then insert tile (ci.t z) else ci.t z := rfl

theorem new_tile_snd_lo (ci : ChangedIdx) (tile : Int × Int) (zoom : Int) :
    (new_tile ci tile zoom).2.lo = ci.lo := by
  unfold new_tile; split <;> rfl

theorem new_tile_snd_hi (ci : ChangedIdx) (tile : Int × Int) (zoom : Int) :
    (new_tile ci tile zoom).2.hi = ci.hi := by
  unfold new_tile; split <;> rfl

theorem pre_of_inv {ci : ChangedIdx} (h : UpwardInv ci) (tile : Int × Int) (zoom : Int) :
    Pre ci tile zoom :=
  fun z hz1 hz2 p hp => Or.inl (h z hz1 hz2 p hp)

theorem upinv_of_pre_out {ci : ChangedIdx} {tile : Int × Int} {zoom : Int}
    (hout : zoom < ci.lo ∨ ci.hi ≤ zoom) (h : Pre ci tile zoom) : UpwardInv ci := by
  intro z hz1 hz2 p hp
  rcases h z hz1 hz2 p hp with hpar | ⟨hz, _⟩
  · exact hpar
  · exfalso; rcases hout with h1 | h1 <;> omega

theorem upinv_of_pre_mem {ci : ChangedIdx} {tile : Int × Int} {zoom : Int}
    (h1 : tile ∈ ci.t zoom) (h : Pre ci tile zoom) : UpwardInv ci := by
  intro z hz1 hz2 p hp
  rcases h z hz1 hz2 p hp with hpar | ⟨hz, hpt⟩
  · exact hpar
  · subst hz; rw [hpt]; exact h1

theorem pre_markAt {ci : ChangedIdx} {tile : Int × Int} {zoom : Int}
    (hlo : ci.lo ≤ zoom) (h : Pre ci tile zoom) :
    Pre (markAt ci tile zoom) (tile.1.fdiv 2, tile.2.fdiv 2) (zoom - 1) := by
  intro z hz1 hz2 p hp
  rw [markAt_lo] at hz1
  rw [markAt_hi] at hz2
  rw [markAt_t] at hp
  by_cases hez : z + 1 = zoom
  · rw [if_pos hez] at hp
    rcases Finset.mem_insert.mp hp with hpt | hp2
    · subst hpt
      right
      exact ⟨by omega, rfl⟩
    · rcases h z hz1 hz2 p hp2 with hpar | ⟨hzz, _⟩
      · left
        rw [markAt_t, if_neg (by omega)]
        exact hpar
      · exfalso; omega
  · rw [if_neg hez] at hp
    rcases h z hz1 hz2 p hp with hpar | ⟨hzz, hpt2⟩
    · left
      rw [markAt_t]
      by_cases hz0 : z = zoom
      · rw [if_pos hz0]
        exact Finset.mem_insert_of_mem hpar
      · rw [if_neg hz0]
        exact hpar
    · left
      rw [markAt_t, if_pos hzz, hpt2]
      exact Finset.mem_insert_self tile _

theorem nuF_inv : ∀ (n : Nat) (ci : ChangedIdx) (tile : Int × Int) (zoom : Int),
    (zoom - ci.lo + 1).toNat < n → Pre ci tile zoom →
    UpwardInv (new_tile_upwardsF n ci tile zoom) := by
  intro n
  induction n with
  | zero =>
    intro ci tile zoom hn _
    exact absurd hn (Nat.not_lt_zero _)
  | succ n ih =>
    intro ci tile zoom hn hp
    simp only [new_tile_upwardsF]
    by_cases h1 : ci.hi < zoom
    · rw [if_pos h1]
      apply ih
      · have := ci.hle; omega
      · exact pre_of_inv (upinv_of_pre_out (Or.inr (le_of_lt h1)) hp) _ _
    · rw [if_neg h1]
      by_cases h2 : (new_tile ci tile zoom).1 = true
      · rw [if_pos h2]
        obtain ⟨hlo, hhi, hmem⟩ := new_tile_fst_true h2
        rw [new_tile_snd_of_true h2]
        apply ih
        · rw [markAt_lo]; omega
        · exact pre_markAt hlo hp
      · rw [if_neg h2, new_tile_snd_of_false h2]
        rcases new_tile_cond_of_false h2 with hc | hc | hc
        · exact upinv_of_pre_out (Or.inl hc) hp
        · exact absurd hc h1
        · exact upinv_of_pre_mem hc hp

theorem new_tile_upwards_inv (ci : ChangedIdx) (tile : Int × Int) (zoom : Int)
    (h : UpwardInv ci) : UpwardInv (new_tile_upwards ci tile zoom) := by
  unfold new_tile_upwards
  apply nuF_inv
  · omega
  · exact pre_of_inv h _ _

theorem foldl_inv {α : Type} (f : ChangedIdx → α → ChangedIdx)
    (hf : ∀ s a, UpwardInv s → UpwardInv (f s a)) :
    ∀ (l : List α) (s : ChangedIdx), UpwardInv s → UpwardInv (l.foldl f s) := by
  intro l
  induction l with
  | nil => intro s hs; exact hs
  | cons a l ih => intro s hs; exact ih _ (hf s a hs)

theorem markRect_inv (ci : ChangedIdx) (left right bottom top : Int)
    (h : UpwardInv ci) : UpwardInv (markRect ci left right bottom top) := by
  unfold markRect
  apply foldl_inv _ _ _ _ h
  intro s x hs
  exact foldl_inv _ (fun s2 y hs2 => new_tile_upwards_inv s2 (x, y) s2.hi hs2) _ _ hs

theorem mark_bbox_inv (env : Env) (ci : ChangedIdx) (b : BBox)
    (h : UpwardInv ci) : UpwardInv (mark_bbox env ci b) := by
  unfold mark_bbox
  split
  · exact h
  · exact markRect_inv _ _ _ _ _ h

theorem freshIdx_inv (lo hi : Int) (h : lo ≤ hi) : UpwardInv (freshIdx lo hi h) := by
  intro z hz1 hz2 p hp
  simp [freshIdx] at hp

theorem nuF_lohi : ∀ (n : Nat) (ci : ChangedIdx) (tile : Int × Int) (zoom : Int),
    (new_tile_upwardsF n ci tile zoom).lo = ci.lo ∧
    (new_tile_upwardsF n ci tile zoom).hi = ci.hi := by
  intro n
  induction n with
  | zero => intro ci tile zoom; exact ⟨rfl, rfl⟩
  | succ n ih =>
    intro ci tile zoom
    simp only [new_tile_upwardsF]
    by_cases h1 : ci.hi < zoom
    · rw [if_pos h1]; exact ih _ _ _
    · rw [if_neg h1]
      by_cases h2 : (new_tile ci tile zoom).1 = true
      · rw [if_pos h2]
        obtain ⟨e1, e2⟩ := ih (new_tile ci tile zoom).2 (tile.1.fdiv 2, tile.2.fdiv 2) (zoom - 1)
        rw [e1, e2, new_tile_snd_lo, new_tile_snd_hi]
        exact ⟨rfl, rfl⟩
      · rw [if_neg h2]
        rw [new_tile_snd_lo, new_tile_snd_hi]
        exact ⟨rfl, rfl⟩

theorem foldl_lohi {α : Type} (f : ChangedIdx → α → ChangedIdx)
    (hf : ∀ s a, (f s a).lo = s.lo ∧ (f s a).hi = s.hi) :
    ∀ (l : List α) (s : ChangedIdx),
      (l.foldl f s).lo = s.lo ∧ (l.foldl f s).hi = s.hi := by
  intro l
  induction l with
  | nil => intro s; exact ⟨rfl, rfl⟩
  | cons a l ih =>
    intro s
    obtain ⟨e1, e2⟩ := ih (f s a)
    obtain ⟨e3, e4⟩ := hf s a
    exact ⟨by rw [List.foldl_cons, e1, e3], by rw [List.foldl_cons, e2, e4]⟩

theorem markRect_lohi (ci : ChangedIdx) (left right bottom top : Int) :
    (markRect ci left right bottom top).lo = ci.lo ∧
    (markRect ci left right bottom top).hi = ci.hi := by
  unfold markRect
  apply foldl_lohi
  intro s x
  apply foldl_lohi
  intro s2 y
  unfold new_tile_upwards
  exact nuF_lohi _ _ _ _

theorem mark_bbox_lohi (env : Env) (ci : ChangedIdx) (b : BBox) :
    (mark_bbox env ci b).lo = ci.lo ∧ (mark_bbox env ci b).hi = ci.hi := by
  unfold mark_bbox
  split
  · exact ⟨rfl, rfl⟩
  · exact markRect_lohi _ _ _ _ _

theorem range3_small (a w : Int) (h1 : 1 ≤ w) (h2 : w ≤ 3) :
    range3 a (a + w) = [a] := by
  unfold range3
  have e : a + w - a = w := by ring
  rw [e]
  have e2 : (w.toNat + 2) / 3 = 1 := by omega
  rw [e2]
  rfl

theorem mem_sample (a w tv : Int) (h1 : 1 ≤ w) (h2 : w ≤ 2)
    (h3 : a ≤ tv) (h4 : tv < a + w) :
    tv ∈ range3 a (a + w) ++ [a + w - 1] := by
  rw [range3_small a w h1 (by omega)]
  simp only [List.mem_append, List.mem_cons, List.not_mem_nil, or_false]
  omega

/-- C1: the claim states that mark_bbox, for an overlapping box, marks
every tile with left <= x <= right and top <= y <= bottom at the finest
analyzed zoom.  The source instead iterates
for y in range(bottom, top + 1) (line 275), and since the row of the
maximal latitude (top) is numerically at most the row of the minimal
latitude (bottom), that range is empty whenever the box spans more than
one tile row: here the corners convert to left = right = 0, top = 0,
bottom = 1, the box overlaps the polygon, and yet nothing at all is
marked, where the claim (and the comment at source line 256) requires
tiles (0, 0) and (0, 1) to be marked.  This contradicts the intent of
the code itself, so the claim is recorded as a code bug. -/
theorem mark_bbox_multirow_marks_nothing :
    envC1.ringOverlap bC1 = true ∧
    envC1.d2n bC1.max_y bC1.min_x 0 = (0, 0) ∧
    envC1.d2n bC1.min_y bC1.max_x 0 = (0, 1) ∧
    (mark_bbox envC1 ciC1 bC1).t 0 = ∅ := by decide

/-- C2 counterexample: the claim asserts that generation_filter samples
every third tile of the block in each dimension plus the far edge, and
that for blocks of width and height at most 3 no updated tile is
missed.  The source uses width for the vertical loop as well (lines
48-49): for a 1 x 3 block at (0, 0) the only sampled tile is (0, 0),
so the updated tile (0, 2) inside the block is missed and the filter
answers false - a false negative within the assumed block size. -/
theorem generation_filter_missed_tile_cex :
    cC2.updated envC2 0 0 2 = true ∧
    generation_filter envC2 cC2 0 0 0 1 3 = false := by decide

/-- C2 (amended): generation_filter samples tile columns at stride 3
over the width plus the column x + width - 1, and tile rows at stride 3
over the width again (not the height) plus the row y + width - 1;
consequently false negatives are excluded only when every block tile is
sampled, which holds whenever width <= 2 and height <= width: then any
updated tile of the block makes generation_filter return true. -/
theorem generation_filter_no_false_negative_small (env : Env) (c : Cmd)
    (zoom x y width height tx ty : Int)
    (hw1 : 1 ≤ width) (hw2 : width ≤ 2) (hh1 : 1 ≤ height) (hh2 : height ≤ width)
    (htx1 : x ≤ tx) (htx2 : tx < x + width)
    (hty1 : y ≤ ty) (hty2 : ty < y + height)
    (hupd : c.updated env zoom tx ty = true) :
    generation_filter env c zoom x y width height = true := by
  unfold generation_filter
  rw [List.any_eq_true]
  refine ⟨tx, mem_sample x width tx hw1 hw2 htx1 htx2, ?_⟩
  rw [List.any_eq_true]
  exact ⟨ty, mem_sample y width ty hw1 hw2 hty1 (by omega), hupd⟩

theorem generation_filter_no_false_negative_small_witness :
    cW2.updated envW2 0 0 0 = true ∧
    generation_filter envW2 cW2 0 0 0 2 1 = true :=
  ⟨by decide,
   generation_filter_no_false_negative_small envW2 cW2 0 0 0 2 1 0 0
     (by decide) (by decide) (by decide) (by decide) (by decide) (by decide)
     (by decide) (by decide) (by decide)⟩

/-- C3: the claim states that a multipolygon relation with two
resolvable members and one dangling member yields exactly one
accumulated bounding box.  The source instead yields the accumulator
once per member (the yield at line 306 sits inside the member loop, one
level deeper than the comment above it intends): here three boxes are
produced, the snapshots of the accumulator after each of the three
members, the last two being the full union; the non-composition
relation with the same members yields the two member boxes as the claim
states; the dangling member (node id 3) is skipped silently in both.
The per-member yield contradicts the comment at source line 305, so the
claim is recorded as a code bug. -/
theorem bboxes_multipolygon_yields_per_member :
    bboxes dC3 2 ElemType.relation 7
        = some [some box1, some (bbUnion box1 box2), some (bbUnion box1 box2)] ∧
    bboxes dC3 2 ElemType.relation 8 = some [some box1, some box2] := by decide

/-- C4: after an analysis (self.changed is set), updated extrapolates
through the pyramid at zooms outside the analyzed range: above max_zoom
it equals updated of the parent tile one level coarser, and below
min_zoom it is true iff one of the four child tiles one level finer is
updated. -/
theorem updated_extrapolates_outside_range (env : Env) (c : Cmd) (ci : ChangedIdx)
    (h : c.changed = some ci) (zoom x y : Int) :
    (ci.hi < zoom →
      c.updated env zoom x y = c.updated env (zoom - 1) (x.fdiv 2) (y.fdiv 2)) ∧
    (zoom < ci.lo →
      (c.updated env zoom x y = true ↔
        (c.updated env (zoom + 1) (2 * x) (2 * y) = true ∨
         c.updated env (zoom + 1) (2 * x + 1) (2 * y) = true ∨
         c.updated env (zoom + 1) (2 * x) (2 * y + 1) = true ∨
         c.updated env (zoom + 1) (2 * x + 1) (2 * y + 1) = true))) := by
  constructor
  · intro hz
    simp only [Cmd.updated, h]
    exact updatedIn_above _ _ _ _ _ _ ci.hle hz
  · intro hz
    simp only [Cmd.updated, h]
    rw [updatedIn_below _ _ _ _ _ _ ci.hle hz]
    simp only [Bool.or_eq_true]
    tauto

theorem updated_extrapolates_outside_range_witness :
    cW2.changed = some ciW2 ∧
    cW2.updated envW2 2 5 5
      = cW2.updated envW2 (2 - 1) ((5 : Int).fdiv 2) ((5 : Int).fdiv 2) :=
  ⟨rfl, (updated_extrapolates_outside_range envW2 cW2 ciW2 rfl 2 5 5).1 (by decide)⟩

/-- C5: the built GuardIndex is hierarchically consistent: every tile
of guard[zoom] for an analyzed zoom overlaps the area-of-interest
polygon (the delegated predicate), and if zoom is strictly above the
coarsest analyzed level its parent tile belongs to guard[zoom - 1]. -/
theorem guard_hierarchically_consistent (env : Env) (ci : ChangedIdx) (zoom x y : Int)
    (h1 : ci.lo ≤ zoom) (h2 : zoom ≤ ci.hi)
    (hm : (x, y) ∈ guardAt env ci zoom) :
    env.tilesOverlap zoom x y = true ∧
    (ci.lo < zoom → (x.fdiv 2, y.fdiv 2) ∈ guardAt env ci (zoom - 1)) := by
  unfold guardAt at hm
  rw [if_pos ⟨h1, h2⟩] at hm
  cases hk : (zoom - ci.lo).toNat with
  | zero =>
    rw [hk] at hm
    have hz : zoom = ci.lo := by omega
    subst hz
    simp only [guardLevels, Finset.mem_filter] at hm
    exact ⟨hm.2, fun hlt => absurd hlt (lt_irrefl _)⟩
  | succ k =>
    rw [hk] at hm
    simp only [guardLevels, Finset.mem_filter] at hm
    have hz : ci.lo + (k : Int) + 1 = zoom := by omega
    refine ⟨?_, fun _ => ?_⟩
    · rw [← hz]; exact hm.2.2
    · unfold guardAt
      rw [if_pos ⟨by omega, by omega⟩]
      have e : (zoom - 1 - ci.lo).toNat = k := by omega
      rw [e]
      exact hm.2.1

theorem guard_hierarchically_consistent_witness :
    (((0 : Int), (0 : Int)) ∈ guardAt envW2 ciW5 1) ∧
    envW2.tilesOverlap 1 0 0 = true ∧
    (((0 : Int).fdiv 2, (0 : Int).fdiv 2) ∈ guardAt envW2 ciW5 (1 - 1)) :=
  ⟨by decide,
   (guard_hierarchically_consistent envW2 ciW5 1 0 0 (by decide) (by decide) (by decide)).1,
   (guard_hierarchically_consistent envW2 ciW5 1 0 0 (by decide) (by decide) (by decide)).2
     (by decide)⟩

/-- C6: with no analysis ever performed (self.changed is None), updated
answers true for every zoom and tile instead of raising: the TypeError
handler returns True on the None index. -/
theorem updated_no_analysis_true (env : Env) (c : Cmd) (zoom x y : Int)
    (h : c.changed = none) : c.updated env zoom x y = true := by
  simp only [Cmd.updated, h]

theorem updated_no_analysis_true_witness :
    cW6.changed = none ∧ cW6.updated envW2 3 7 9 = true :=
  ⟨rfl, updated_no_analysis_true envW2 cW6 3 7 9 rfl⟩

/-- C7: after any sequence of mark_bbox calls starting from the freshly
initialized index, the changed-tile index satisfies the upward
propagation invariant: for every zoom in [min_zoom, max_zoom - 1], a
tile marked at zoom + 1 has its parent tile marked at zoom. -/
theorem changed_upward_propagation_invariant (env : Env) (lo hi : Int) (h : lo ≤ hi)
    (l : List BBox) (zoom x y : Int) (h1 : lo ≤ zoom) (h2 : zoom < hi)
    (hm : (x, y) ∈ (l.foldl (mark_bbox env) (freshIdx lo hi h)).t (zoom + 1)) :
    (x.fdiv 2, y.fdiv 2) ∈ (l.foldl (mark_bbox env) (freshIdx lo hi h)).t zoom := by
  have hInv : UpwardInv (l.foldl (mark_bbox env) (freshIdx lo hi h)) :=
    foldl_inv _ (fun s b hs => mark_bbox_inv env s b hs) l _ (freshIdx_inv lo hi h)
  have hlohi :=
    foldl_lohi (mark_bbox env) (fun s b => mark_bbox_lohi env s b) l (freshIdx lo hi h)
  exact hInv zoom (by rw [hlohi.1]; exact h1) (by rw [hlohi.2]; exact h2) (x, y) hm

theorem changed_upward_propagation_invariant_witness :
    (((0 : Int), (0 : Int))
        ∈ (([bW7].foldl (mark_bbox envW2) (freshIdx 0 1 (by decide))).t (0 + 1))) ∧
    (((0 : Int).fdiv 2, (0 : Int).fdiv 2)
        ∈ (([bW7].foldl (mark_bbox envW2) (freshIdx 0 1 (by decide))).t 0)) :=
  ⟨by decide,
   changed_upward_propagation_invariant envW2 0 1 (by decide) [bW7] 0 0 0
     (by decide) (by decide) (by decide)⟩

/-- C8: a bounding box whose boundary ring does not overlap the
area-of-interest polygon leaves the changed-tile index exactly
unchanged: mark_bbox returns at once. -/
theorem mark_bbox_outside_polygon_noop (env : Env) (ci : ChangedIdx) (b : BBox)
    (h : env.ringOverlap b = false) : mark_bbox env ci b = ci := by
  unfold mark_bbox
  rw [if_pos h]

theorem mark_bbox_outside_polygon_noop_witness :
    envW8.ringOverlap bW7 = false ∧ mark_bbox envW8 ciW2 bW7 = ciW2 :=
  ⟨rfl, mark_bbox_outside_polygon_noop envW8 ciW2 bW7 rfl⟩

/-- C9: reading a changeset whose envelope has no child action elements
is a no-op: starting from an absent or freshly initialized index, after
osmChangeRead the changed-tile index is the fresh all-empty index, so
no tile is marked at any zoom, and execute returns immediately without
running the parent generation command. -/
theorem osmChangeRead_empty_changeset_noop (env : Env) (fuel : Nat) (c : Cmd)
    (cs : ChangeSet) (base newm : OsmData) (h1 : cs.hasChildren = false)
    (h2 : c.changed = none ∨ c.changed = some (freshIdx c.min_zoom c.max_zoom c.hmz)) :
    (osmChangeRead env fuel c cs base newm).changed
        = some (freshIdx c.min_zoom c.max_zoom c.hmz) ∧
    (∀ zoom x y : Int, (x, y) ∉ (freshIdx c.min_zoom c.max_zoom c.hmz).t zoom) ∧
    execute (osmChangeRead env fuel c cs base newm) = ExecResult.skipped := by
  rcases h2 with h2 | h2 <;>
    refine ⟨?_, ?_, ?_⟩ <;>
      simp [osmChangeRead, execute, freshIdx, h1, h2]

theorem osmChangeRead_empty_changeset_noop_witness :
    csW9.hasChildren = false ∧
    (osmChangeRead envW2 1 cW9 csW9 dEmpty dEmpty).changed
        = some (freshIdx cW9.min_zoom cW9.max_zoom cW9.hmz) ∧
    (((0 : Int), (0 : Int)) ∉ (freshIdx cW9.min_zoom cW9.max_zoom cW9.hmz).t 0) ∧
    execute (osmChangeRead envW2 1 cW9 csW9 dEmpty dEmpty) = ExecResult.skipped :=
  ⟨rfl,
   (osmChangeRead_empty_changeset_noop envW2 1 cW9 csW9 dEmpty dEmpty rfl (Or.inl rfl)).1,
   (osmChangeRead_empty_changeset_noop envW2 1 cW9 csW9 dEmpty dEmpty rfl (Or.inl rfl)).2.1 0 0 0,
   (osmChangeRead_empty_changeset_noop envW2 1 cW9 csW9 dEmpty dEmpty rfl (Or.inl rfl)).2.2⟩

/-- C10: the claim states that save_filter returns exactly
updated(tile.zoom, tile.tile_x, tile.tile_y) unconditionally, never
failing regardless of configuration flags such as verbose.  With
verbose unset this holds; with verbose set, however, line 66 of the
source evaluates self.changed[zoom] where the name zoom is unbound in
the scope of save_filter (and line 67 indexes the boolean save), so the
call raises NameError instead of returning - modelled by the none
result.  The broken verbose branch is plainly leftover debugging code,
so the claim is recorded as a code bug. -/
theorem save_filter_unconditional_vs_verbose (env : Env) (c : Cmd) (tile : Tile) :
    save_filter env c false tile
      = some (c.updated env tile.zoom tile.tile_x tile.tile_y) ∧
    save_filter env c true tile = none :=
  ⟨rfl, rfl⟩
